import Mathlib

/-!
Shallow embedding of `build.py`, a minimal static page generator: it walks a
template directory, filters out partials and hidden files, resolves a data
context for each template from a registry of generator functions, renders the
template through the Jinja engine and writes one `.html` output per template,
and in watch mode rebuilds everything when a file under the template root
changes.

Modelling conventions:
- Filesystem paths handled by `os.walk`/`os.path.join`/`os.path.relpath` are
  modelled as lists of path components (`Path`); component names contain no
  separator, so `os.path.join root name` is `root ++ [name]`.  The watch
  handler compares raw path *strings* with `str.startswith`, so it is modelled
  on `String` directly.
- `os.walk` is third-party (standard library); its output listing — a sequence
  of (root, dirs, filenames) triples — is taken as the input of discovery, and
  the properties a real walk guarantees (each directory visited once, file
  names unique within a directory, no path both a directory and a file) are
  explicit hypotheses (`WalkWF`).
- Python exceptions are modelled with `Except PyErr`; the code only ever
  distinguishes `KeyError` from everything else.
- The Jinja environment is modelled as a function from template path and
  context to the rendered string or a raised error; generators in the
  `CONTEXTS` registry are zero-argument functions returning a context or a
  raised error.  Contexts are keyword dictionaries `List (String × α)`.
-/

namespace StaticJinja

/-- A filesystem path, as its list of components. -/
abbrev Path := List String

/-- Python exceptions, at the granularity the program distinguishes them:
KeyError (the only type `render_templates` catches) versus everything else. -/
inductive PyErr where
  | keyError : PyErr
  | other : String → PyErr
deriving DecidableEq

/-- Python `str.split(sep)` for a one-character separator, on the character
list of the string: `splitChar c s` always yields at least one (possibly
empty) part, and one extra part per occurrence of `c`. -/
def splitChar (c : Char) : List Char → List (List Char)
  | [] => [[]]
  | a :: rest =>
    match splitChar c rest with
    | [] => [[]]
    | p :: ps => if a = c then [] :: p :: ps else (a :: p) :: ps

/-- Python `str.startswith(t)` for a one-character `t`. -/
def startsWithChar (c : Char) : List Char → Bool
  | [] => false
  | a :: _ => a = c

/-- The function `should_render` of build.py: a file name is rendered unless it
starts with an underscore (a partial), starts with a dot (hidden), or has no
extension separator (`len(filename.split(".")) == 1`). -/
def should_render (filename : String) : Bool :=
  !(startsWithChar '_' filename.data || startsWithChar '.' filename.data
      || (splitChar '.' filename.data).length == 1)

/-- One `(root, dirs, filenames)` triple of an `os.walk` listing. -/
abbrev WalkEntry := Path × List String × List String

/-- The function `find_templates` of build.py, over the listing produced by
`os.walk(searchpath)`: for every entry it ignores the `dirs` component (the
source unpacks it as `_`) and yields `os.path.join(root, filename)` for each
file name passing `should_render`. -/
def find_templates (walk : List WalkEntry) : List Path :=
  walk.flatMap fun e => (e.2.2.filter should_render).map fun filename => e.1 ++ [filename]

/-- Well-formedness of a real filesystem walk listing: each directory is
visited exactly once, file names are unique within a directory, and no
directory path coincides with a file path. -/
structure WalkWF (walk : List WalkEntry) : Prop where
  dirs_nodup : (walk.map fun e => e.1).Nodup
  files_nodup : ∀ e ∈ walk, e.2.2.Nodup
  no_clash : ∀ e ∈ walk, ∀ e' ∈ walk, ∀ n ∈ e'.2.2, e.1 ≠ e'.1 ++ [n]

/-- Python `os.path.splitext` on a bare file name (one path component),
faithful to `posixpath.splitext`: split at the last dot, except that a run of
leading dots never starts an extension (so `".bashrc"` has no extension). -/
def splitext1 (s : String) : String × String :=
  let lead := s.data.takeWhile fun a => a = '.'
  let rest := s.data.dropWhile fun a => a = '.'
  if '.' ∈ rest then
    let revRest := rest.reverse
    let extRev := revRest.takeWhile fun a => a ≠ '.'
    let baseRev := (revRest.dropWhile fun a => a ≠ '.').tail
    (⟨lead ++ baseRev.reverse⟩, ⟨'.' :: extRev.reverse⟩)
  else (s, "")

/-- Python `os.path.splitext` on a relative path (here always nonempty): the
extension is split off the last component, the directory part is untouched. -/
def os_splitext (p : Path) : Path × String :=
  (p.dropLast ++ [(splitext1 (p.getLastD (""))).1], (splitext1 (p.getLastD (""))).2)

/-- Python `os.path.relpath p start`, modelled for the only case the program
exercises: `p` lies under `start` (every path `find_templates` yields extends
the search path it was called with). -/
def os_relpath (p start : Path) : Path :=
  if start.isPrefixOf p then p.drop start.length else p

/-- Appending a literal suffix to the string form of a path (`'%s.html' %
name` in the source) extends its last component. -/
def addSuffix (p : Path) (suffix : String) : Path :=
  p.dropLast ++ [p.getLastD ("") ++ suffix]

/-- One completed output-file write: the output path and the full rendered
content, written in one operation (`f.write(template.render(**kwargs))`). -/
structure Write where
  path : Path
  content : String
deriving DecidableEq

/-- A render context: the keyword dictionary passed as `**kwargs`. -/
abbrev Ctx (α : Type) := List (String × α)

/-- The Jinja environment, as the program uses it:
`env.get_template(relpath)` followed by `template.render(**context)`, combined
into one function from relative template path and context to the rendered
string or the raised error (missing template, syntax error, render error). -/
abbrev RenderEnv (α : Type) := Path → Ctx α → Except PyErr String

/-- The function `render_template` of build.py: compute the path of
`template_name` relative to the template root, strip the extension
(`os.path.splitext`), render the template, and produce the single write of
`'%s.html' % name` with the rendered content.  The source opens the output
file before rendering, so a failed render also truncates the output file; that
side effect is not modelled (no claim depends on it). -/
def render_template {α : Type} (env : RenderEnv α) (templatePath : Path)
    (template_name : Path) (context : Ctx α) : Except PyErr Write :=
  let relpath := os_relpath template_name templatePath
  let name := (os_splitext relpath).1
  match env relpath context with
  | .error e => .error e
  | .ok rendered => .ok ⟨addSuffix name (".html"), rendered⟩

/-- Python `csv.DictReader` as `parse_csv` uses it, modelled for unquoted
fields: the first line is the header, and each following line becomes a
mapping from header key to cell text (all values strings). -/
def parse_csv (lines : List String) : List (List (String × String)) :=
  match lines with
  | [] => []
  | header :: rows =>
    rows.map fun row =>
      ((splitChar ',' header.data).map fun cs => String.mk cs).zip
        ((splitChar ',' row.data).map fun cs => String.mk cs)

/-- The `CONTEXTS` registry: a mapping from template path to a zero-argument
context generator, populated by `context_generator` before a build. -/
abbrev Registry (α : Type) := List (Path × (Unit → Except PyErr (Ctx α)))

/-- Python dict indexing `CONTEXTS[filename]`: the registered generator, or a
raised `KeyError` when no generator is registered for that exact path. -/
def dictGet {α : Type} (contexts : Registry α) (filename : Path) :
    Except PyErr (Unit → Except PyErr (Ctx α)) :=
  match contexts.find? fun e => e.1 == filename with
  | some e => .ok e.2
  | none => .error .keyError

/-- The context resolution inside the `render_templates` loop:
`try: context = CONTEXTS[filename]() except KeyError: context = {}`.  The try
block spans both the dict lookup and the generator call, so a `KeyError`
raised by either one is replaced by the empty context, while every other
error escapes the loop. -/
def tryGetContext {α : Type} (contexts : Registry α) (filename : Path) :
    Except PyErr (Ctx α) :=
  match (match dictGet contexts filename with
         | .error e => .error e
         | .ok g => g () : Except PyErr (Ctx α)) with
  | .error .keyError => .ok []
  | r => r

/-- The body of the `render_templates` loop for one discovered file: resolve
the context, then `render_template(env, filename, **context)`. -/
def renderOne {α : Type} (env : RenderEnv α) (contexts : Registry α)
    (templatePath : Path) (filename : Path) : Except PyErr Write :=
  match tryGetContext contexts filename with
  | .error e => .error e
  | .ok context => render_template env templatePath filename context

/-- The `render_templates` loop over an explicit list of discovered files:
writes complete in order until the first uncaught error, which aborts the rest
of the pass (the loop body has no error handler besides the KeyError catch
inside `tryGetContext`). -/
def renderLoop {α : Type} (env : RenderEnv α) (contexts : Registry α)
    (templatePath : Path) : List Path → List Write × Option PyErr
  | [] => ([], none)
  | f :: rest =>
    match renderOne env contexts templatePath f with
    | .error e => ([], some e)
    | .ok w =>
      let r := renderLoop env contexts templatePath rest
      (w :: r.1, r.2)

/-- The function `render_templates` of build.py: one full build pass, driving
the loop over `find_templates(searchpath)` in discovery order. -/
def render_templates {α : Type} (env : RenderEnv α) (contexts : Registry α)
    (templatePath : Path) (walk : List WalkEntry) : List Write × Option PyErr :=
  renderLoop env contexts templatePath (find_templates walk)

/-- The output area of the filesystem, as a map from path to file content. -/
abbrev Store := Path → Option String

/-- Writing one output file: `open(output_name, "w")` truncates any existing
file and the new content replaces it unconditionally. -/
def writeFile (s : Store) (w : Write) : Store :=
  fun k => if k = w.path then some w.content else s k

/-- Applying the writes of a pass to the output area, in pass order. -/
def applyWrites (s : Store) (ws : List Write) : Store :=
  ws.foldl writeFile s

/-- One full build pass acting on the output area.  The template tree (the
walk listing), the registry and the engine are inputs that the pass does not
modify: outputs land outside the template root. -/
def buildPass {α : Type} (env : RenderEnv α) (contexts : Registry α)
    (templatePath : Path) (walk : List WalkEntry) (s : Store) : Store :=
  applyWrites s (render_templates env contexts templatePath walk).1

/-- The handler `JinjaEventHandler.on_modified` of build.py, as the number of
full rebuild passes it triggers for an event: one when
`event.src_path.startswith(TEMPLATE_PATH)` holds (a raw string prefix test),
zero otherwise.  The base-class `on_created` call it also makes is a no-op. -/
def on_modified (templatePath : String) (src_path : String) : Nat :=
  if templatePath.data.isPrefixOf src_path.data then 1 else 0

/-- Modelled from the spec: a path falls under the template root when it is
the root itself or lies strictly inside it (the root followed by a path
separator is a prefix of it). -/
def underTemplateRoot (templatePath : String) (p : String) : Prop :=
  p = templatePath ∨ (templatePath ++ ("/")).data.isPrefixOf p.data = true

/-- The two externally visible phases of `main`. -/
inductive MainAction where
  | build : MainAction
  | watch : MainAction
deriving DecidableEq

/-- The function `main` of build.py, as the sequence of phases it performs:
one full build always happens first (`render_templates(env, TEMPLATE_PATH)`),
and watch mode starts afterwards exactly when
`len(argv) > 1 and argv[1] == '--watch'`. -/
def main_actions (argv : List String) : List MainAction :=
  MainAction.build ::
    (if argv.length > 1 ∧ argv.getD 1 ("") = "--watch" then [MainAction.watch] else [])

/-! Helper lemmas about the string-splitting primitives. -/

theorem splitChar_ne_nil (c : Char) (cs : List Char) : splitChar c cs ≠ [] := by
  induction cs with
  | nil => simp [splitChar]
  | cons a rest ih =>
    cases h : splitChar c rest with
    | nil => exact absurd h ih
    | cons p ps =>
      rw [splitChar, h]
      by_cases hac : a = c <;> simp [hac]

theorem splitChar_length_eq_one (c : Char) (cs : List Char) :
    (splitChar c cs).length = 1 ↔ c ∉ cs := by
  induction cs with
  | nil => simp [splitChar]
  | cons a rest ih =>
    cases h : splitChar c rest with
    | nil => exact absurd h (splitChar_ne_nil c rest)
    | cons p ps =>
      rw [h] at ih
      rw [splitChar, h]
      by_cases hac : a = c
      · subst hac
        simp
      · have hca : c ≠ a := fun hc => hac hc.symm
        simp only [List.length_cons] at ih
        simp [hac, hca, ih]

theorem should_render_iff (f : String) :
    should_render f = true ↔
      startsWithChar '_' f.data = false ∧ startsWithChar '.' f.data = false ∧
        '.' ∈ f.data := by
  simp only [should_render, Bool.not_eq_true', Bool.or_eq_false_iff,
    beq_eq_false_iff_ne, ne_eq, splitChar_length_eq_one, not_not, and_assoc]

theorem dropWhile_ne_mem {α : Type} [DecidableEq α] (c : α) (l : List α) (h : c ∈ l) :
    ∃ t, l.dropWhile (fun a => a ≠ c) = c :: t := by
  induction l with
  | nil => cases h
  | cons a l' ih =>
    by_cases hac : a = c
    · subst hac
      refine ⟨l', ?_⟩
      rw [List.dropWhile_cons, if_neg (by simp)]
    · rcases List.mem_cons.mp h with h1 | h2
      · exact absurd h1.symm hac
      · rcases ih h2 with ⟨t, ht⟩
        refine ⟨t, ?_⟩
        rw [List.dropWhile_cons, if_pos (by simp [hac]), ht]

theorem splitext1_spec (f : String) (h : should_render f = true) :
    ∃ stem ext : List Char, f.data = stem ++ '.' :: ext ∧ '.' ∉ ext ∧
      splitext1 f = (⟨stem⟩, ⟨'.' :: ext⟩) := by
  rcases (should_render_iff f).mp h with ⟨_, hd, hmem⟩
  have hlead : f.data.takeWhile (fun a => a = '.') = [] := by
    cases hf : f.data with
    | nil => simp
    | cons a l =>
      rw [hf] at hd
      have ha : ¬(a = '.') := of_decide_eq_false hd
      simp [List.takeWhile_cons, ha]
  have hdrop : f.data.dropWhile (fun a => a = '.') = f.data := by
    have := List.takeWhile_append_dropWhile (fun a => decide (a = '.')) f.data
    rw [hlead, List.nil_append] at this
    exact this
  rcases dropWhile_ne_mem '.' f.data.reverse (List.mem_reverse.mpr hmem) with ⟨t, ht⟩
  have hsplitrev :
      (f.data.reverse.takeWhile fun a => a ≠ '.') ++ '.' :: t = f.data.reverse := by
    rw [← ht]
    exact List.takeWhile_append_dropWhile _ _
  have hfdata :
      f.data = t.reverse ++ '.' :: (f.data.reverse.takeWhile fun a => a ≠ '.').reverse := by
    have h1 := congrArg List.reverse hsplitrev
    rw [List.reverse_reverse, List.reverse_append, List.reverse_cons, List.append_assoc] at h1
    exact h1.symm
  refine ⟨t.reverse, (f.data.reverse.takeWhile fun a => a ≠ '.').reverse, hfdata, ?_, ?_⟩
  · intro hmem2
    have := List.mem_takeWhile_imp (List.mem_reverse.mp hmem2)
    simp at this
  · simp only [splitext1]
    rw [hdrop, if_pos hmem, hlead, ht]
    rfl

/-! Helper lemmas about the path primitives. -/

theorem getLastD_snoc {α : Type} (l : List α) (a d : α) : (l ++ [a]).getLastD d = a := by
  simp [List.getLastD_eq_getLast?]

theorem os_splitext_snoc (dir : Path) (fname : String) :
    os_splitext (dir ++ [fname]) = (dir ++ [(splitext1 fname).1], (splitext1 fname).2) := by
  unfold os_splitext
  rw [List.dropLast_concat, getLastD_snoc]

theorem addSuffix_snoc (dir : Path) (s suffix : String) :
    addSuffix (dir ++ [s]) suffix = dir ++ [s ++ suffix] := by
  unfold addSuffix
  rw [List.dropLast_concat, getLastD_snoc]

theorem isPrefixOf_append {α : Type} [DecidableEq α] (l₁ l₂ : List α) :
    l₁.isPrefixOf (l₁ ++ l₂) = true := by
  induction l₁ with
  | nil => cases l₂ <;> rfl
  | cons a t ih => simp [List.isPrefixOf, ih]

theorem isPrefixOf_self {α : Type} [DecidableEq α] (l : List α) : l.isPrefixOf l = true := by
  induction l with
  | nil => rfl
  | cons a t ih => simp [List.isPrefixOf, ih]

theorem isPrefixOf_of_append_isPrefixOf {α : Type} [DecidableEq α] (l₁ l₂ l₃ : List α)
    (h : (l₁ ++ l₂).isPrefixOf l₃ = true) : l₁.isPrefixOf l₃ = true := by
  induction l₁ generalizing l₃ with
  | nil => cases l₃ <;> rfl
  | cons a t ih =>
    cases l₃ with
    | nil => simp [List.isPrefixOf] at h
    | cons b t3 =>
      simp only [List.cons_append, List.isPrefixOf, Bool.and_eq_true, beq_iff_eq] at h ⊢
      exact ⟨h.1, ih t3 h.2⟩

theorem os_relpath_append (start rel : Path) : os_relpath (start ++ rel) start = rel := by
  unfold os_relpath
  rw [if_pos (isPrefixOf_append start rel), List.drop_left]


/-! Helper lemmas about discovery. -/

theorem find_templates_cons (e : WalkEntry) (rest : List WalkEntry) :
    find_templates (e :: rest) =
      ((e.2.2.filter should_render).map fun fn => e.1 ++ [fn]) ++ find_templates rest := by
  rw [find_templates, List.flatMap_cons]
  rfl

theorem count_entry_block (r : Path) (name : String) (e : WalkEntry) (hne : e.1 ≠ r) :
    ((e.2.2.filter should_render).map fun fn => e.1 ++ [fn]).count (r ++ [name]) = 0 := by
  rw [List.count_eq_zero]
  intro hmem
  rcases List.mem_map.mp hmem with ⟨fn, _, heq⟩
  exact hne (List.append_inj' heq rfl).1

theorem count_map_snoc (r : Path) (name : String) (l : List String) :
    (l.map fun fn => r ++ [fn]).count (r ++ [name]) = l.count name := by
  induction l with
  | nil => rfl
  | cons a t ih =>
    rw [List.map_cons, List.count_cons, List.count_cons, ih]
    by_cases h : a = name
    · rw [h, beq_self_eq_true, beq_self_eq_true]
    · have h1 : (a == name) = false := beq_eq_false_iff_ne.mpr h
      have h2 : (r ++ [a] == r ++ [name]) = false :=
        beq_eq_false_iff_ne.mpr fun hc => h (by simpa using List.append_cancel_left hc)
      rw [h1, h2]

theorem count_entry_block_self (r : Path) (name : String) (files : List String)
    (hnodup : files.Nodup) (hmem : name ∈ files) :
    ((files.filter should_render).map fun fn => r ++ [fn]).count (r ++ [name]) =
      if should_render name then 1 else 0 := by
  rw [count_map_snoc]
  by_cases hsr : should_render name = true
  · rw [List.count_filter hsr, if_pos hsr]
    exact List.count_eq_one_of_mem hnodup hmem
  · rw [if_neg hsr, List.count_eq_zero]
    intro hin
    exact hsr (List.mem_filter.mp hin).2

theorem count_find_templates_aux (r : Path) (name : String) (walk : List WalkEntry)
    (hdirs : (walk.map fun e => e.1).Nodup) (hfiles : ∀ e ∈ walk, e.2.2.Nodup)
    (e : WalkEntry) (he : e ∈ walk) (her : e.1 = r) (hn : name ∈ e.2.2) :
    (find_templates walk).count (r ++ [name]) = if should_render name then 1 else 0 := by
  induction walk with
  | nil => cases he
  | cons e0 rest ih =>
    rw [find_templates_cons, List.count_append]
    rw [List.map_cons, List.nodup_cons] at hdirs
    rcases List.mem_cons.mp he with he0 | herest
    · subst he0
      subst her
      rw [count_entry_block_self e.1 name e.2.2 (hfiles e (List.mem_cons_self e rest)) hn]
      have hz : (find_templates rest).count (e.1 ++ [name]) = 0 := by
        rw [List.count_eq_zero]
        intro hmem
        rcases List.mem_flatMap.mp hmem with ⟨e2, he2, hin⟩
        rcases List.mem_map.mp hin with ⟨fn, _, heq⟩
        exact hdirs.1 ((List.append_inj' heq rfl).1 ▸ List.mem_map.mpr ⟨e2, he2, rfl⟩)
      rw [hz, Nat.add_zero]
    · have hne : e0.1 ≠ r := by
        intro hcontra
        exact hdirs.1 (hcontra.symm ▸ her ▸ List.mem_map.mpr ⟨e, herest, rfl⟩)
      rw [count_entry_block r name e0 hne, Nat.zero_add]
      exact ih hdirs.2 (fun e2 he2 => hfiles e2 (List.mem_cons_of_mem e0 he2)) herest


/-- C3: For every file in the search tree, discovery yields it exactly once if
and only if its name does not start with an underscore, does not start with a
dot, and contains at least one extension separator; and no directory (any path
`os.walk` visits as a root) is ever yielded directly by discovery. -/
theorem discovery_yields_renderable_exactly_once (walk : List WalkEntry) (wf : WalkWF walk) :
    (∀ e ∈ walk, ∀ name ∈ e.2.2,
        (find_templates walk).count (e.1 ++ [name]) = if should_render name then 1 else 0)
    ∧ (∀ e ∈ walk, e.1 ∉ find_templates walk) := by
  constructor
  · intro e he name hn
    exact count_find_templates_aux e.1 name walk wf.dirs_nodup wf.files_nodup e he rfl hn
  · intro e he hmem
    rcases List.mem_flatMap.mp hmem with ⟨e2, he2, hin⟩
    rcases List.mem_map.mp hin with ⟨fn, hfn, heq⟩
    exact wf.no_clash e he e2 he2 fn (List.mem_filter.mp hfn).1 heq.symm

/-- Witness for C3 on a concrete two-directory tree: the qualifying file
`index.haml` is yielded exactly once. -/
theorem discovery_yields_renderable_exactly_once_witness :
    (find_templates [((["templates"]), (["sub"]), (["index.haml", "_p.haml", ".hidden"])),
        ((["templates", "sub"]), ([]), (["page.haml"]))]).count
        (["templates"] ++ [("index.haml")]) = if should_render ("index.haml") then 1 else 0 :=
  (discovery_yields_renderable_exactly_once _ ⟨by decide, by decide, by decide⟩).1
    ((["templates"]), (["sub"]), (["index.haml", "_p.haml", ".hidden"])) (by decide)
    ("index.haml") (by decide)

/-- C10: The discovery filter inspects only a file name, never the directory
path containing it: any file whose own name passes `should_render` is yielded,
whatever the components of its directory path are (in particular components
starting with an underscore or a dot). -/
theorem discovery_ignores_directory_names (walk : List WalkEntry) (e : WalkEntry)
    (he : e ∈ walk) (name : String) (hn : name ∈ e.2.2) (hsr : should_render name = true) :
    e.1 ++ [name] ∈ find_templates walk :=
  List.mem_flatMap.mpr ⟨e, he, List.mem_map.mpr ⟨name, List.mem_filter.mpr ⟨hn, hsr⟩, rfl⟩⟩

/-- Witness for C10: a renderable file inside a directory named `_partials` is
still discovered. -/
theorem discovery_ignores_directory_names_witness :
    (["templates", "_partials"]) ++ [("page.haml")] ∈
      find_templates [((["templates", "_partials"]), ([]), (["page.haml"]))] :=
  discovery_ignores_directory_names _
    ((["templates", "_partials"]), ([]), (["page.haml"])) (by decide)
    ("page.haml") (by decide) (by decide)

/-- C4: If a generator is registered in the registry for a template path, its
returned value is the resolved context, verbatim; if no generator is
registered for that exact path, the resolved context is the empty mapping. -/
theorem context_resolution_exact {α : Type} (contexts : Registry α) (filename : Path) :
    (∀ g c, dictGet contexts filename = Except.ok g → g () = Except.ok c →
        tryGetContext contexts filename = Except.ok c)
    ∧ ((contexts.find? fun e => e.1 == filename) = none →
        tryGetContext contexts filename = Except.ok []) := by
  constructor
  · intro g c hg hc
    simp only [tryGetContext, hg, hc]
  · intro hnone
    simp only [tryGetContext, dictGet, hnone]

/-- Witness for C4: a concrete registered generator has its returned mapping
used verbatim as the context. -/
theorem context_resolution_exact_witness :
    tryGetContext [((["templates", "a.haml"]),
        fun _ => Except.ok ([(("k"), ("v"))]))] (["templates", "a.haml"]) =
      Except.ok [(("k"), ("v"))] :=
  (context_resolution_exact _ _).1 _ _ rfl rfl

/-- C5: Rendering a discovered template (a path under the template root whose
file name passes `should_render`) writes exactly one output file, whose path
is the template path relative to the root with its last extension segment
(the part after the last dot of the file name) replaced by the fixed `.html`
extension, and whose content is exactly the engine render of that template
with the resolved context. -/
theorem render_template_output {α : Type} (env : RenderEnv α) (templatePath dir : Path)
    (fname : String) (context : Ctx α) (out : String)
    (hsr : should_render fname = true)
    (henv : env (dir ++ [fname]) context = Except.ok out) :
    ∃ stem ext : List Char, fname.data = stem ++ '.' :: ext ∧ '.' ∉ ext ∧
      render_template env templatePath (templatePath ++ (dir ++ [fname])) context =
        Except.ok ⟨dir ++ [String.mk stem ++ (".html")], out⟩ := by
  rcases splitext1_spec fname hsr with ⟨stem, ext, hdata, hext, hsplit⟩
  refine ⟨stem, ext, hdata, hext, ?_⟩
  simp only [render_template, os_relpath_append, henv, os_splitext_snoc, hsplit,
    addSuffix_snoc]

/-- Witness for C5: rendering `templates/sub/page.haml` writes
`sub/page.html` with the engine output. -/
theorem render_template_output_witness :
    ∃ stem ext : List Char, ("page.haml").data = stem ++ '.' :: ext ∧ '.' ∉ ext ∧
      render_template (fun _ _ => Except.ok ("H") : RenderEnv String) (["templates"])
          ((["templates"]) ++ ((["sub"]) ++ [("page.haml")])) [] =
        Except.ok ⟨["sub"] ++ [String.mk stem ++ (".html")], ("H")⟩ :=
  render_template_output _ _ _ _ _ _ (by decide) rfl


/-- C1 counterexample: a registered generator that raises `KeyError` does not
abort the pass — the pass completes with no error and the template is rendered
with the empty context (the engine sees an empty keyword dictionary), because
the `except KeyError` around `CONTEXTS[filename]()` also catches errors raised
inside the generator itself. -/
theorem generator_keyerror_swallowed :
    render_templates
        (fun _ ctx => Except.ok (if ctx.isEmpty then ("EMPTY") else ("FULL")) : RenderEnv String)
        [((["templates", "data.haml"]), fun _ => Except.error PyErr.keyError)]
        (["templates"])
        [((["templates"]), ([]), (["data.haml"]))]
      = ([⟨["data.html"], ("EMPTY")⟩], none) := by decide

/-- C1 amended: any error other than `KeyError` raised by a registered
generator propagates out of the pass exactly as a render error does, aborting
it; a `KeyError` raised by the generator, however, is silently replaced by the
empty context. -/
theorem generator_error_propagation {α : Type} (env : RenderEnv α) (contexts : Registry α)
    (templatePath f : Path) (rest : List Path) (g : Unit → Except PyErr (Ctx α)) (e : PyErr)
    (hreg : dictGet contexts f = Except.ok g) (hraise : g () = Except.error e) :
    (e ≠ PyErr.keyError → renderLoop env contexts templatePath (f :: rest) = ([], some e))
    ∧ (e = PyErr.keyError → tryGetContext contexts f = Except.ok []) := by
  constructor
  · intro hne
    have hctx : tryGetContext contexts f = Except.error e := by
      simp only [tryGetContext, hreg, hraise]
      cases e with
      | keyError => exact absurd rfl hne
      | other m => rfl
    simp only [renderLoop, renderOne, hctx]
  · intro heq
    subst heq
    simp only [tryGetContext, hreg, hraise]

/-- Witness for the amended C1: a generator raising a non-KeyError error
aborts the whole pass with exactly that error. -/
theorem generator_error_propagation_witness :
    renderLoop (fun _ _ => Except.ok ("H") : RenderEnv String)
        [((["templates", "data.haml"]), fun _ => Except.error (PyErr.other ("boom")))]
        (["templates"]) [(["templates", "data.haml"])]
      = ([], some (PyErr.other ("boom"))) :=
  (generator_error_propagation (fun _ _ => Except.ok ("H") : RenderEnv String)
      [((["templates", "data.haml"]), fun _ => Except.error (PyErr.other ("boom")))]
      (["templates"]) (["templates", "data.haml"]) []
      (fun _ => Except.error (PyErr.other ("boom"))) (PyErr.other ("boom"))
      rfl rfl).1 (by decide)

/-- C6: Within one build pass, a failure on one template aborts the remainder:
the pass produces exactly the writes of the error-free prefix of the discovery
order, stops with the first error, and renders nothing after the failing
template. -/
theorem render_failure_aborts_pass {α : Type} (env : RenderEnv α) (contexts : Registry α)
    (templatePath : Path) (pre : List Path) (f : Path) (post : List Path) (e : PyErr)
    (hpre : ∀ g ∈ pre, ∃ w, renderOne env contexts templatePath g = Except.ok w)
    (hf : renderOne env contexts templatePath f = Except.error e) :
    renderLoop env contexts templatePath (pre ++ f :: post) =
      ((pre.filterMap fun g => (renderOne env contexts templatePath g).toOption), some e) := by
  induction pre with
  | nil =>
    simp only [List.nil_append, List.filterMap_nil, renderLoop, hf]
  | cons g0 pre2 ih =>
    rcases hpre g0 (List.mem_cons_self g0 pre2) with ⟨w, hw⟩
    have hrest := ih (fun g hg => hpre g (List.mem_cons_of_mem g0 hg))
    simp only [List.cons_append, renderLoop, hw, List.append_eq, hrest,
      List.filterMap_cons, Except.toOption]

/-- Witness for C6: with a concrete engine failing on the second of three
templates, the pass writes only the first template and stops with the error. -/
theorem render_failure_aborts_pass_witness :
    renderLoop
        (fun rel _ => if rel = [("b.haml")] then Except.error (PyErr.other ("syntax"))
          else Except.ok ("OK") : RenderEnv String)
        ([] : Registry String) (["t"])
        [(["t", "a.haml"]), (["t", "b.haml"]), (["t", "c.haml"])]
      = ([⟨[("a.html")], ("OK")⟩], some (PyErr.other ("syntax"))) :=
  render_failure_aborts_pass _ _ _ [(["t", "a.haml"])] (["t", "b.haml"]) [(["t", "c.haml"])] _
    (by
      intro g hg
      rw [List.mem_singleton] at hg
      subst hg
      exact ⟨⟨[("a.html")], ("OK")⟩, rfl⟩)
    rfl

/-- C7: The CSV loader on a file with header row `a,b` and single data row
`1,2` returns the one-element sequence of the mapping sending a to "1" and
b to "2", with all values as text. -/
theorem parse_csv_example :
    parse_csv [("a,b"), ("1,2")] = [[(("a"), ("1")), (("b"), ("2"))]] := by decide


/-! Helper lemma about the output area: a sequence of writes determines each
output file by the last write to that path. -/

theorem applyWrites_apply (ws : List Write) (s : Store) (k : Path) :
    applyWrites s ws k =
      match ws.reverse.find? fun w => w.path == k with
      | some w => some w.content
      | none => s k := by
  induction ws generalizing s with
  | nil => simp [applyWrites]
  | cons w0 ws2 ih =>
    rw [applyWrites, List.foldl_cons]
    have hstep := ih (writeFile s w0)
    rw [applyWrites] at hstep
    rw [hstep, List.reverse_cons, List.find?_append]
    cases h : ws2.reverse.find? fun w => w.path == k with
    | some w1 => simp [Option.or]
    | none =>
      simp only [Option.or]
      unfold writeFile
      by_cases hk : w0.path = k
      · simp [List.find?_cons, hk]
      · simp [List.find?_cons, hk]
        intro hcontra
        exact absurd hcontra.symm hk

/-- C8: Running a full build pass twice, with the same template tree, the same
registry and the same engine, leaves the output area byte-identical to running
it once: the second pass overwrites each output with the same content. -/
theorem build_pass_idempotent {α : Type} (env : RenderEnv α) (contexts : Registry α)
    (templatePath : Path) (walk : List WalkEntry) (s : Store) :
    buildPass env contexts templatePath walk (buildPass env contexts templatePath walk s) =
      buildPass env contexts templatePath walk s := by
  funext k
  unfold buildPass
  rw [applyWrites_apply]
  cases h :
      (render_templates env contexts templatePath walk).1.reverse.find? fun w => w.path == k with
  | some w => rw [applyWrites_apply, h]
  | none => rfl

/-- C2 counterexample: the handler decides by a raw string prefix test, so a
modification event for the sibling path `/proj/templatesx`, which does not
fall under the template root `/proj/templates`, still triggers a rebuild. -/
theorem on_modified_prefix_counterexample :
    on_modified ("/proj/templates") ("/proj/templatesx") = 1 ∧
      ¬ underTemplateRoot ("/proj/templates") ("/proj/templatesx") := by
  constructor
  · decide
  · unfold underTemplateRoot
    decide

/-- C2 amended: a modification event whose path falls under the template root
triggers exactly one full rebuild pass; in general the handler triggers a
rebuild exactly when the event path starts, as a raw string, with the template
root path, so a path outside the root that merely extends the root string
(without a separator) also triggers one. -/
theorem on_modified_rebuild (templatePath p : String) :
    (underTemplateRoot templatePath p → on_modified templatePath p = 1)
    ∧ (on_modified templatePath p = 1 ↔ templatePath.data.isPrefixOf p.data = true) := by
  constructor
  · intro hu
    unfold on_modified
    rcases hu with heq | hpre
    · rw [heq, if_pos (isPrefixOf_self templatePath.data)]
    · rw [String.data_append] at hpre
      rw [if_pos (isPrefixOf_of_append_isPrefixOf templatePath.data (("/")).data p.data hpre)]
  · unfold on_modified
    by_cases h : templatePath.data.isPrefixOf p.data = true
    · simp [h]
    · simp [h]

/-- Witness for the amended C2: an event for a file inside the template root
triggers exactly one rebuild. -/
theorem on_modified_rebuild_witness :
    on_modified ("/proj/templates") ("/proj/templates/index.haml") = 1 :=
  (on_modified_rebuild ("/proj/templates") ("/proj/templates/index.haml")).1
    (Or.inr (by decide))

/-! Helper lemma for the command line: the source condition
`len(argv) > 1 and argv[1] == '--watch'` says exactly that the watch flag is
in position 1. -/

theorem argv_flag_iff (argv : List String) :
    (argv.length > 1 ∧ argv.getD 1 ("") = "--watch") ↔ argv[1]? = some ("--watch") := by
  match argv with
  | [] => simp
  | [a] => simp
  | a :: b :: rest => simp [List.getD]

/-- C9: main always performs the initial full build, and enters watch mode if
and only if the watch flag is the first positional argument (`argv[1]`);
whenever watch mode is entered, it begins strictly after the initial build. -/
theorem main_watch_flag (argv : List String) :
    (main_actions argv).head? = some MainAction.build
    ∧ (MainAction.watch ∈ main_actions argv ↔ argv[1]? = some ("--watch"))
    ∧ (∀ i, (main_actions argv)[i]? = some MainAction.watch →
        0 < i ∧ (main_actions argv)[0]? = some MainAction.build) := by
  refine ⟨rfl, ?_, ?_⟩
  · rw [← argv_flag_iff]
    unfold main_actions
    by_cases h : argv.length > 1 ∧ argv.getD 1 ("") = "--watch"
    · simp [h]
    · simp [h]
  · intro i hi
    unfold main_actions at hi ⊢
    by_cases h : argv.length > 1 ∧ argv.getD 1 ("") = "--watch"
    · rw [if_pos h] at hi ⊢
      match i with
      | 0 => simp at hi
      | 1 => exact ⟨Nat.zero_lt_one, rfl⟩
      | n + 2 => simp at hi
    · rw [if_neg h] at hi ⊢
      match i with
      | 0 => simp at hi
      | n + 1 => simp at hi

/-- Witness for C9: with the watch flag as first positional argument, watch
mode is entered. -/
theorem main_watch_flag_witness :
    MainAction.watch ∈ main_actions [("build.py"), ("--watch")] :=
  (main_watch_flag [("build.py"), ("--watch")]).2.1.mpr rfl

end StaticJinja
